import Mathlib

/-!
Shallow embedding of the Cloudflare-Mail2Ntfy-Worker email pipeline
(src/index.js).  Strings are modelled as `List Char`; JavaScript string
methods and the regular expressions appearing in the source are translated
into explicit recursive functions.  All definitions are executable and
structurally recursive so concrete inputs evaluate inside the kernel.
-/

namespace Mail2Ntfy

/-- The whitespace set matched by JavaScript's `\s` (and by
`String.prototype.trim`): ASCII whitespace, NBSP, and the Unicode
space separators / line separators / BOM. -/
def isJsWs (c : Char) : Bool :=
  c == ' ' || c == '\t' || c == '\n' || c == '\x0b' || c == '\x0c' || c == '\r' ||
  c == '\u00a0' || c == '\u1680' ||
  c == '\u2000' || c == '\u2001' || c == '\u2002' || c == '\u2003' ||
  c == '\u2004' || c == '\u2005' || c == '\u2006' || c == '\u2007' ||
  c == '\u2008' || c == '\u2009' || c == '\u200a' ||
  c == '\u2028' || c == '\u2029' || c == '\u202f' || c == '\u205f' ||
  c == '\u3000' || c == '\ufeff'

/-- ASCII lower-casing, as applied by `toLowerCase()` to the ASCII-only
header tokens handled by the worker. -/
def toLowerAscii (c : Char) : Char :=
  if 'A' ≤ c ∧ c ≤ 'Z' then Char.ofNat (c.toNat + 32) else c

/-- Model of `String.prototype.trim`: drop leading and trailing JS whitespace. -/
def trimChars (l : List Char) : List Char :=
  ((l.dropWhile isJsWs).reverse.dropWhile isJsWs).reverse

/-- One pass of `replace(/\s+/g, ' ')`: `inWs` records whether the
previous character belonged to a whitespace run already emitted as `' '`. -/
def collapseGo (inWs : Bool) : List Char → List Char
  | [] => []
  | c :: rest =>
    if isJsWs c then
      if inWs then collapseGo true rest else ' ' :: collapseGo true rest
    else c :: collapseGo false rest

/-- Model of `replace(/\s+/g, ' ')`: collapse every whitespace run to one space. -/
def collapseWs (l : List Char) : List Char := collapseGo false l

/-- Does `pat` occur at the head of `l`? (model of a literal match) -/
def leadsWith : List Char → List Char → Bool
  | [], _ => true
  | _ :: _, [] => false
  | a :: as, b :: bs => a == b && leadsWith as bs

/-- Case-insensitive variant: `pat` is given lower-cased, the candidate is
folded with `toLowerAscii`. -/
def ciLeadsWith : List Char → List Char → Bool
  | [], _ => true
  | _ :: _, [] => false
  | a :: as, b :: bs => a == toLowerAscii b && ciLeadsWith as bs

/-- Model of `String.prototype.includes(tok)`. -/
def containsSub (tok : List Char) : List Char → Bool
  | [] => tok.isEmpty
  | c :: rest => leadsWith tok (c :: rest) || containsSub tok rest

/-- Model of `String.prototype.indexOf(tok)` returning `none` for `-1`. -/
def idxOfSub (tok : List Char) : List Char → Option Nat
  | [] => if tok.isEmpty then some 0 else none
  | c :: rest =>
    if leadsWith tok (c :: rest) then some 0
    else (idxOfSub tok rest).map (· + 1)

/-- Value of a quoted-printable hex digit (`[A-Fa-f0-9]`), stated on the
character codes: digits are 48-57, `A`-`F` are 65-70, `a`-`f` are 97-102. -/
def hexDigit (c : Char) : Option Nat :=
  let n := c.toNat
  if 48 ≤ n ∧ n ≤ 57 then some (n - 48)
  else if 65 ≤ n ∧ n ≤ 70 then some (n - 55)
  else if 97 ≤ n ∧ n ≤ 102 then some (n - 87)
  else none

/-- Model of `replace(/=\r?\n/g, '')`: remove quoted-printable soft line breaks. -/
def removeSoftBreaks : List Char → List Char
  | [] => []
  | '=' :: '\r' :: '\n' :: rest => removeSoftBreaks rest
  | '=' :: '\n' :: rest => removeSoftBreaks rest
  | c :: rest => c :: removeSoftBreaks rest

/-- Model of the `=XX` escape replace: each `=XX` escape becomes
`String.fromCharCode(parseInt(XX, 16))`; other characters pass through. -/
def qpEscape : List Char → List Char
  | [] => []
  | '=' :: c1 :: c2 :: rest =>
    match hexDigit c1, hexDigit c2 with
    | some h1, some h2 => Char.ofNat (16 * h1 + h2) :: qpEscape rest
    | _, _ => '=' :: qpEscape (c1 :: c2 :: rest)
  | c :: rest => c :: qpEscape rest

/-- Function `decodeQuotedPrintable` from src/index.js. -/
def decodeQuotedPrintable (input : List Char) : List Char :=
  if input = [] then [] else qpEscape (removeSoftBreaks input)

/-- ASCII whitespace stripped by the forgiving-base64 algorithm behind
`atob`. -/
def isAsciiB64Ws (c : Char) : Bool :=
  c == '\t' || c == '\n' || c == '\x0c' || c == '\r' || c == ' '

/-- Base64 alphabet value of a character. -/
def charSextet (c : Char) : Option Nat :=
  if 'A' ≤ c ∧ c ≤ 'Z' then some (c.toNat - 'A'.toNat)
  else if 'a' ≤ c ∧ c ≤ 'z' then some (c.toNat - 'a'.toNat + 26)
  else if '0' ≤ c ∧ c ≤ '9' then some (c.toNat - '0'.toNat + 52)
  else if c = '+' then some 62
  else if c = '/' then some 63
  else none

/-- Map every character to its sextet, failing on any non-alphabet char. -/
def mapSextets : List Char → Option (List Nat)
  | [] => some []
  | c :: rest =>
    match charSextet c, mapSextets rest with
    | some v, some vs => some (v :: vs)
    | _, _ => none

/-- Reassemble bytes from sextets; a trailing group of 2 or 3 sextets
contributes 1 or 2 bytes (remaining bits are discarded). -/
def b64Bytes : List Nat → List Nat
  | a :: b :: c :: d :: rest =>
    (a * 4 + b / 16) :: ((b % 16) * 16 + c / 4) :: ((c % 4) * 64 + d) :: b64Bytes rest
  | [a, b, c] => [a * 4 + b / 16, (b % 16) * 16 + c / 4]
  | [a, b] => [a * 4 + b / 16]
  | _ => []

/-- Remove one or two trailing `=` padding characters. -/
def dropTrailingEq (l : List Char) : List Char :=
  match l.reverse with
  | '=' :: '=' :: r => r.reverse
  | '=' :: r => r.reverse
  | _ => l

/-- Model of `atob`: the WHATWG forgiving-base64 decode, `none` modelling the
`InvalidCharacterError` throw. -/
def atobF (input : List Char) : Option (List Char) :=
  let d0 := input.filter (fun c => !isAsciiB64Ws c)
  let d := if d0.length % 4 = 0 then dropTrailingEq d0 else d0
  if d.length % 4 = 1 then none
  else
    match mapSextets d with
    | some vs => some ((b64Bytes vs).map Char.ofNat)
    | none => none

/-- Function `decodeBase64` from src/index.js: strip `\s`, `atob`, and on failure
return the original input (the `try`/`catch`). -/
def decodeBase64 (input : List Char) : List Char :=
  if input = [] then []
  else
    match atobF (input.filter (fun c => !isJsWs c)) with
    | some t => t
    | none => input

/-- Fuel-driven model of `String.prototype.split(tok)` for a non-empty
literal separator; `fuel` only has to dominate the list length, one unit
is spent per character position examined. -/
def splitF (tok : List Char) : Nat → List Char → List (List Char)
  | _, [] => [[]]
  | 0, l => [l]
  | fuel + 1, c :: rest =>
    match tok with
    | [] => [c :: rest]
    | t :: ts =>
      if leadsWith (t :: ts) (c :: rest) then
        [] :: splitF tok fuel (rest.drop ts.length)
      else
        match splitF tok fuel rest with
        | [] => [[c]]
        | s :: ss => (c :: s) :: ss

/-- Model of `String.prototype.split(tok)` (the worker only splits on non-empty
separators: `--<boundary>`, `'@'` and `'\n'`). -/
def jsSplit (tok l : List Char) : List (List Char) := splitF tok l.length l

/-- Characters allowed inside a captured boundary value: `[^";\r\n]`. -/
def allowedBChar (c : Char) : Bool :=
  !(c == '"' || c == ';' || c == '\r' || c == '\n')

/-- First match of `/boundary="?([^";\r\n]+)"?/i`, returning capture
group 1.  When the character after `boundary=` is `"` but no allowed
character follows it, the regex backtracks to an empty `"?` and then
fails on the character class, so the scan moves on. -/
def findBoundary : List Char → Option (List Char)
  | [] => none
  | c :: rest =>
    if ciLeadsWith "boundary=".data (c :: rest) then
      let after := (c :: rest).drop "boundary=".data.length
      let cand :=
        match after with
        | '"' :: a2 => a2.takeWhile allowedBChar
        | _ => after.takeWhile allowedBChar
      if cand = [] then findBoundary rest else some cand
    else findBoundary rest

/-- First match of `/Content-Transfer-Encoding:\s*(\S+)/i`, returning
capture group 1; when only whitespace follows the colon the `\S+` fails
and the scan moves on. -/
def findEncoding : List Char → Option (List Char)
  | [] => none
  | c :: rest =>
    if ciLeadsWith "content-transfer-encoding:".data (c :: rest) then
      let after :=
        ((c :: rest).drop "content-transfer-encoding:".data.length).dropWhile isJsWs
      let cand := after.takeWhile (fun x => !isJsWs x)
      if cand = [] then findEncoding rest else some cand
    else findEncoding rest

/-- The `--$` regex replace: strip a trailing `--` boundary closer. -/
def stripDashClose (l : List Char) : List Char :=
  match l.reverse with
  | '-' :: '-' :: r => r.reverse
  | _ => l

/-- Function `extractPartBody` from src/index.js: body after the part's blank
line, trimmed, boundary closer stripped, decoded per its
`Content-Transfer-Encoding` (default `7bit` = unmodified). -/
def extractPartBody (part : List Char) : Option (List Char) :=
  match idxOfSub "\r\n\r\n".data part with
  | none => none
  | some i =>
    let encoding :=
      match findEncoding part with
      | some e => e.map toLowerAscii
      | none => "7bit".data
    let body := trimChars (stripDashClose (trimChars (part.drop (i + 4))))
    if body = [] then none
    else if encoding = "quoted-printable".data then some (decodeQuotedPrintable body)
    else if encoding = "base64".data then some (decodeBase64 body)
    else some body

/-- Function `extractSimpleEmail` from src/index.js: everything after the first
`\r\n\r\n`, trimmed; the whole text trimmed when there is none. -/
def extractSimpleEmail (raw : List Char) : List Char :=
  match idxOfSub "\r\n\r\n".data raw with
  | some i => trimChars (raw.drop (i + 4))
  | none => trimChars raw

/-- The part loop of `extractPlainText`: skip parts without the literal
`Content-Type: text/plain`, return the first truthy (non-null, non-empty)
decoded body. -/
def firstPartBody : List (List Char) → Option (List Char)
  | [] => none
  | p :: ps =>
    if containsSub "Content-Type: text/plain".data p then
      match extractPartBody p with
      | some b => if b = [] then firstPartBody ps else some b
      | none => firstPartBody ps
    else firstPartBody ps

/-- Function `extractPlainText` from src/index.js. -/
def extractPlainText (raw : List Char) : List Char :=
  if raw = [] then []
  else
    match findBoundary raw with
    | none => extractSimpleEmail raw
    | some b =>
      match firstPartBody (jsSplit ("--".data ++ b) raw) with
      | some body => body
      | none => extractSimpleEmail raw

/-- Does the line's trimmed content start with `>`? -/
def startsWithGt (l : List Char) : Bool :=
  match trimChars l with
  | '>' :: _ => true
  | _ => false

/-- Function `cleanBodyText` from src/index.js: normalize whitespace, trim, split
on `'\n'`, drop lines whose trimmed content starts with `>`, rejoin,
trim.  (The whitespace normalization runs first, exactly as in the
source.) -/
def cleanBodyText (text : List Char) : List Char :=
  if text = [] then []
  else
    trimChars
      (List.intercalate "\n".data
        ((jsSplit "\n".data (trimChars (collapseWs text))).filter
          (fun line => !startsWithGt line)))

/-- Function `truncateText` from src/index.js (`maxLength` defaults to 1000 at the
call site). -/
def truncateText (text : List Char) (maxLength : Nat) : List Char :=
  if text = [] ∨ text.length ≤ maxLength then text
  else text.take maxLength ++ "\n\n*...truncated*".data

/-- Function `generateTopic` from src/index.js: `split('@')[1]` with `.` mapped to
`-`; `unknown` for a missing `@` or an empty segment. -/
def generateTopic (email : List Char) : List Char :=
  if email = [] ∨ email.contains '@' = false then "unknown".data
  else
    match (jsSplit "@".data email).get? 1 with
    | some d =>
      if d = [] then "unknown".data
      else d.map (fun c => if c = '.' then '-' else c)
    | none => "unknown".data

/-- Function `sanitizeHeader` from src/index.js: CR/LF to spaces, whitespace runs
collapsed, trimmed. -/
def sanitizeHeader (value : List Char) : List Char :=
  if value = [] then []
  else
    trimChars (collapseWs (value.map (fun c => if c = '\r' ∨ c = '\n' then ' ' else c)))

/-- The `emailData` object handed to `buildMarkdownPayload`.
`fromAddr` models the `from` field (`from` is a Lean keyword). -/
structure EmailData where
  fromAddr : List Char
  toAddr : List Char
  subject : List Char
  date : List Char
  body : List Char

/-- Function `buildMarkdownPayload` from src/index.js: the template literal with
sanitized headers, trimmed. -/
def buildMarkdownPayload (d : EmailData) : List Char :=
  trimChars
    ("\n**Date:** ".data ++ (sanitizeHeader d.date ++
      ("\n\n**From:** ".data ++ (sanitizeHeader d.fromAddr ++
        ("  \n**To:** ".data ++ (sanitizeHeader d.toAddr ++
          ("  \n**Subject:** ".data ++ (sanitizeHeader d.subject ++
            ("  \n\n---\n\n".data ++ (d.body ++ "\n".data))))))))))

/-- Worker environment; an empty `NTFY_SERVER` models the falsy
(missing or empty) configuration value. -/
structure Env where
  NTFY_SERVER : List Char

/-- Function `validateEnvironment` from src/index.js (run by the constructor). -/
def validateEnvironment (env : Env) : Except (List Char) Unit :=
  if env.NTFY_SERVER = [] then
    Except.error "NTFY_SERVER environment variable is required".data
  else Except.ok ()

/-- Outcome of the single `fetch` call, supplied as an oracle: either a
response (with its `ok` flag and status) or a transport-level rejection. -/
inductive Fetch where
  | response (ok : Bool) (status : Nat) (statusText : List Char)
  | reject (msg : List Char)

/-- The outbound POST built by `sendNotification`. -/
structure SentRequest where
  url : List Char
  title : List Char
  priority : List Char
  tags : List Char
  markdown : List Char
  body : List Char

/-- Result of `sendNotification`: the request that was issued, the
`console.error` log lines, and `err` carrying a rethrown transport
error (`none` when the call returns normally). -/
structure SendResult where
  sent : SentRequest
  logs : List (List Char)
  err : Option (List Char)

/-- Model of the trailing-slash replace: drop one trailing slash. -/
def stripTrailingSlash (l : List Char) : List Char :=
  match l.reverse with
  | '/' :: r => r.reverse
  | _ => l

/-- Function `sendNotification` from src/index.js: build URL and headers, POST;
log non-`ok` responses without raising; log and rethrow transport
failures. -/
def sendNotification (server topic payload subject toAddr : List Char)
    (f : Fetch) : SendResult :=
  let url := stripTrailingSlash server ++ ("/".data ++ topic)
  let req : SentRequest :=
    { url := url
      title := "Email: ".data ++ sanitizeHeader subject
      priority := "4".data
      tags := "email,".data ++ sanitizeHeader toAddr
      markdown := "yes".data
      body := payload }
  match f with
  | Fetch.response ok status statusText =>
    { sent := req
      logs :=
        if ok then []
        else ["ntfy request failed: ".data ++
          (Nat.toDigits 10 status ++ (" ".data ++ statusText))]
      err := none }
  | Fetch.reject m =>
    { sent := req
      logs := ["Failed to send ntfy notification: ".data ++ m]
      err := some m }

/-- Inbound message (the Cloudflare email event): `to`/`fromAddr` are
`none` when the property is absent, the header lookup returns `''` for a
missing header, `raw` is the message text.  `fromAddr` models
`message.from` (`from` is a Lean keyword). -/
structure Message where
  toAddr : Option (List Char)
  fromAddr : Option (List Char)
  headers : List (List Char × List Char)
  raw : List Char

/-- Model of `message.headers.get(name)`: case-insensitive lookup, `''` when
absent. -/
def hGet (m : Message) (name : List Char) : List Char :=
  match m.headers.find?
      (fun kv => kv.1.map toLowerAscii == name.map toLowerAscii) with
  | some kv => kv.2
  | none => []

/-- JavaScript `a || b` on strings: `''` is falsy. -/
def jsOrL (a b : List Char) : List Char := if a = [] then b else a

/-- JavaScript `a || b` where `a` may be `undefined`. -/
def optOr (a : Option (List Char)) (b : List Char) : List Char :=
  match a with
  | some s => jsOrL s b
  | none => b

/-- Function `processEmail` from src/index.js.  `now` models
`new Date().toISOString()`; `f` is the outcome of the `fetch` call.  On
success it returns the issued request and the `console` log lines; the
rethrown error of the `catch` block is the `Except.error` case. -/
def processEmail (env : Env) (msg : Message) (now : List Char)
    (f : Fetch) : Except (List Char) (SentRequest × List (List Char)) :=
  let toA := optOr msg.toAddr []
  let fromA := jsOrL (hGet msg "from".data) (optOr msg.fromAddr "(unknown sender)".data)
  let subject := jsOrL (hGet msg "subject".data) "(no subject)".data
  let date := jsOrL (hGet msg "date".data) now
  let bodyText := cleanBodyText (extractPlainText msg.raw)
  let truncatedBody := truncateText bodyText 1000
  let payload := buildMarkdownPayload
    { fromAddr := fromA, toAddr := toA, subject := subject, date := date, body := truncatedBody }
  let topic := generateTopic toA
  let res := sendNotification env.NTFY_SERVER topic payload subject toA f
  match res.err with
  | some e => Except.error e
  | none =>
    Except.ok (res.sent, res.logs ++ ["Email notification sent for: ".data ++ subject])

/-- The top-level `email` handler from src/index.js: construct the
processor (validating the environment), process the email, and catch
any error, logging it without rethrowing. -/
def emailHandler (msg : Message) (env : Env) (now : List Char)
    (f : Fetch) : Except (List Char) (List (List Char)) :=
  match validateEnvironment env with
  | Except.error e => Except.ok ["Worker email handler failed: ".data ++ e]
  | Except.ok _ =>
    match processEmail env msg now f with
    | Except.error e => Except.ok ["Worker email handler failed: ".data ++ e]
    | Except.ok (_, logs) => Except.ok logs

/-! Spec-level reference definitions (written from the specification's
wording, for refinement statements) and concrete example inputs. -/

/-- The spec's notion of a MIME part's header block: the text before the
part's first blank-line separator (the whole part when there is none). -/
def headerBlock (part : List Char) : List Char :=
  match idxOfSub "\r\n\r\n".data part with
  | some i => part.take i
  | none => part

/-- Split at the first occurrence of `tok`, returning the pieces before
and after it (spec-level reference for the non-MIME extraction). -/
def splitFirstAt (tok : List Char) : List Char → Option (List Char × List Char)
  | [] => if tok = [] then some ([], []) else none
  | c :: rest =>
    if leadsWith tok (c :: rest) then some ([], (c :: rest).drop tok.length)
    else
      match splitFirstAt tok rest with
      | some (a, b) => some (c :: a, b)
      | none => none

/-- The spec's step 2, written from its words: split at the first
blank-line separator and return the trimmed remainder, or the whole
trimmed text when no blank line exists. -/
def specNonMimeExtract (raw : List Char) : List Char :=
  match splitFirstAt "\r\n\r\n".data raw with
  | some (_, rest) => trimChars rest
  | none => trimChars raw

/-- Structural reference splitter on a single separator character,
used to restate `split('@')[1]` as "the segment between the first and
second separator". -/
def splitCh (c0 : Char) : List Char → List (List Char)
  | [] => [[]]
  | c :: rest =>
    if c = c0 then [] :: splitCh c0 rest
    else
      match splitCh c0 rest with
      | [] => [[c]]
      | s :: ss => (c :: s) :: ss

/-- A multipart message whose only `text/plain` occurrence sits in the
BODY of a `text/html` part, separating "whole part contains the token"
from "header block contains the token". -/
def rawCex : List Char :=
  "Content-Type: multipart/alternative; boundary=B\r\n\r\n--B\r\nContent-Type: text/html\r\n\r\nContent-Type: text/plain is mentioned here\r\n--B--".data

/-- A multipart message with a `text/html` part followed by a
quoted-printable `text/plain` part. -/
def rawMp : List Char :=
  "Content-Type: multipart/alternative; boundary=XYZ\r\n\r\n--XYZ\r\nContent-Type: text/html\r\n\r\n<p>Hi</p>\r\n--XYZ\r\nContent-Type: text/plain\r\nContent-Transfer-Encoding: quoted-printable\r\n\r\nHi=21\r\n--XYZ--".data

end Mail2Ntfy

namespace Mail2Ntfy

theorem aux_mem_dropWhile (p : Char → Bool) :
    ∀ l : List Char, ∀ c ∈ l.dropWhile p, c ∈ l := by
  intro l
  induction l with
  | nil => simp [List.dropWhile]
  | cons x rest ih =>
    intro c hc
    rw [List.dropWhile_cons] at hc
    by_cases hx : p x = true
    · simp only [hx, if_true] at hc
      exact List.mem_cons_of_mem x (ih c hc)
    · simp only [hx, if_false] at hc
      exact hc

theorem aux_mem_trimChars {c : Char} {l : List Char} (h : c ∈ trimChars l) : c ∈ l := by
  unfold trimChars at h
  rw [List.mem_reverse] at h
  have h2 := aux_mem_dropWhile isJsWs _ c h
  rw [List.mem_reverse] at h2
  exact aux_mem_dropWhile isJsWs l c h2

theorem aux_mem_collapseGo :
    ∀ (l : List Char) (b : Bool), ∀ c ∈ collapseGo b l, c = ' ' ∨ c ∈ l := by
  intro l
  induction l with
  | nil => simp [collapseGo]
  | cons x rest ih =>
    intro b c hc
    unfold collapseGo at hc
    by_cases hx : isJsWs x = true
    · simp only [hx, if_true] at hc
      cases b with
      | true =>
        rcases ih true c hc with h | h
        · exact Or.inl h
        · exact Or.inr (List.mem_cons_of_mem x h)
      | false =>
        rcases List.mem_cons.1 hc with h | h
        · exact Or.inl h
        · rcases ih true c h with h2 | h2
          · exact Or.inl h2
          · exact Or.inr (List.mem_cons_of_mem x h2)
    · simp only [hx, if_false] at hc
      rcases List.mem_cons.1 hc with h | h
      · exact Or.inr (h ▸ List.mem_cons_self x rest)
      · rcases ih false c h with h2 | h2
        · exact Or.inl h2
        · exact Or.inr (List.mem_cons_of_mem x h2)

/-- C9: for every input, sanitizeHeader's result contains no carriage
return and no line feed (each is replaced by a space, whitespace runs
are collapsed, the result trimmed); and on the spec's example,
`sanitizeHeader "  a\r\nb "` is `"a b"`. -/
theorem claim_c9_sanitizeHeader :
    (∀ v : List Char,
      (sanitizeHeader v).all (fun c => !(c == '\r' || c == '\n')) = true)
    ∧ sanitizeHeader "  a\r\nb ".data = "a b".data := by
  constructor
  · intro v
    apply List.all_eq_true.2
    intro c hc
    by_cases hv : v = []
    · subst hv; simp [sanitizeHeader] at hc
    · unfold sanitizeHeader at hc
      rw [if_neg hv] at hc
      have h1 := aux_mem_trimChars hc
      rcases aux_mem_collapseGo _ false c h1 with h2 | h2
      · subst h2; decide
      · rcases List.mem_map.1 h2 with ⟨x, _, hx⟩
        by_cases hcr : x = '\r' ∨ x = '\n'
        · rw [if_pos hcr] at hx; subst hx; decide
        · rw [if_neg hcr] at hx
          subst hx
          push_neg at hcr
          simp [hcr.1, hcr.2]
  · decide

end Mail2Ntfy

namespace Mail2Ntfy

theorem aux_removeSoftBreaks_no_eq :
    ∀ s : List Char, s.all (fun c => !(c == '=')) = true → removeSoftBreaks s = s := by
  intro s
  induction s with
  | nil => intro _; rfl
  | cons c rest ih =>
    intro h
    rw [List.all_cons, Bool.and_eq_true] at h
    have hc : (c == '=') = false := by
      rw [Bool.not_eq_true'] at h
      exact h.1
    have hr : rest.all (fun c => !(c == '=')) = true := h.2
    have hcne : c ≠ '=' := by
      intro e; rw [e] at hc; simp at hc
    rw [removeSoftBreaks.eq_def]
    split
    · next heq => exact absurd heq (List.cons_ne_nil c rest)
    · next heq => exact absurd (List.cons.inj heq).1 hcne
    · next heq => exact absurd (List.cons.inj heq).1 hcne
    · next c' rest' _ _ heq =>
      obtain ⟨e1, e2⟩ := List.cons.inj heq
      subst e1; subst e2
      rw [ih hr]

theorem aux_qpEscape_no_eq :
    ∀ s : List Char, s.all (fun c => !(c == '=')) = true → qpEscape s = s := by
  intro s
  induction s with
  | nil => intro _; rfl
  | cons c rest ih =>
    intro h
    rw [List.all_cons, Bool.and_eq_true] at h
    have hc : (c == '=') = false := by
      rw [Bool.not_eq_true'] at h
      exact h.1
    have hr : rest.all (fun c => !(c == '=')) = true := h.2
    have hcne : c ≠ '=' := by
      intro e; rw [e] at hc; simp at hc
    rw [qpEscape.eq_def]
    split
    · next heq => exact absurd heq (List.cons_ne_nil c rest)
    · next heq => exact absurd (List.cons.inj heq).1 hcne
    · next c' rest' _ heq =>
      obtain ⟨e1, e2⟩ := List.cons.inj heq
      subst e1; subst e2
      rw [ih hr]

/-- C7: the quoted-printable decoder removes soft line breaks and then
maps each `=XX` escape to its character; on the documented example it
yields `"Hello, World!\n"`, and it leaves any string without `=`
unchanged. -/
theorem claim_c7_decodeQuotedPrintable :
    decodeQuotedPrintable "Hello=2C=20World=21=0A".data = "Hello, World!\n".data
    ∧ ∀ s : List Char, s.all (fun c => !(c == '=')) = true →
        decodeQuotedPrintable s = s := by
  constructor
  · decide
  · intro s h
    by_cases hs : s = []
    · subst hs; rfl
    · unfold decodeQuotedPrintable
      rw [if_neg hs, aux_removeSoftBreaks_no_eq s h, aux_qpEscape_no_eq s h]

/-- Witness for C7 at a concrete `=`-free input. -/
theorem claim_c7_witness :
    decodeQuotedPrintable "plain ascii text".data = "plain ascii text".data :=
  claim_c7_decodeQuotedPrintable.2 "plain ascii text".data (by decide)

/-- C4: `decodeBase64` is total and equals "strip JS whitespace, forgiving
base64 decode, and on failure return the original input unchanged"; a
non-base64 input comes back unchanged. -/
theorem claim_c4_decodeBase64_soft_failure :
    (∀ s : List Char,
      decodeBase64 s = (atobF (s.filter (fun c => !isJsWs c))).getD s)
    ∧ decodeBase64 "%%%".data = "%%%".data := by
  constructor
  · intro s
    by_cases hs : s = []
    · subst hs; decide
    · unfold decodeBase64
      rw [if_neg hs]
      cases h : atobF (s.filter (fun c => !isJsWs c)) <;> simp [Option.getD]
  · decide

end Mail2Ntfy

set_option maxRecDepth 1000000

namespace Mail2Ntfy

/-- C1: evaluating `cleanBodyText` at the repo's own test input shows the
whitespace collapse runs before the quoted-line filter, so the quoted
line survives: the result is `"Line 1 > quoted Line 2"`, not the
`"Line 1\nLine 2"` the claim (and the repository's test) expects. -/
theorem claim_c1_cleanBodyText_quote_filter_dead :
    cleanBodyText "Line 1\n> quoted\nLine 2".data = "Line 1 > quoted Line 2".data
    ∧ (cleanBodyText "Line 1\n> quoted\nLine 2".data == "Line 1\nLine 2".data) = false := by
  decide

/-- Counterexample to C2 as stated: for `"a@b@c"` the substring after the
first `@` is `"b@c"`, but `generateTopic` (via `split('@')[1]`) returns
only the segment before the second `@`. -/
theorem claim_c2_counterexample :
    generateTopic "a@b@c".data = "b".data
    ∧ (generateTopic "a@b@c".data == "b@c".data) = false := by
  decide

/-- C6: `sendNotification` rethrows exactly the transport-level failure
(after logging it), while a response — even one with a non-success
status — never produces an error, a non-`ok` status being only logged. -/
theorem claim_c6_sendNotification_error_channel
    (server topic payload subject toAddr : List Char) :
    (∀ m, (sendNotification server topic payload subject toAddr (Fetch.reject m)).err = some m
      ∧ (sendNotification server topic payload subject toAddr (Fetch.reject m)).logs
          = ["Failed to send ntfy notification: ".data ++ m])
    ∧ (∀ ok st stx,
        (sendNotification server topic payload subject toAddr (Fetch.response ok st stx)).err = none)
    ∧ (∀ st stx,
        (sendNotification server topic payload subject toAddr (Fetch.response false st stx)).logs
          = ["ntfy request failed: ".data ++ (Nat.toDigits 10 st ++ (" ".data ++ stx))]) := by
  refine ⟨fun m => ⟨rfl, rfl⟩, fun ok st stx => rfl, fun st stx => rfl⟩

/-- C5: the top-level email handler resolves without raising for every
message, environment (including a missing `NTFY_SERVER`) and fetch
outcome (including a transport-level rejection). -/
theorem claim_c5_emailHandler_never_raises
    (msg : Message) (env : Env) (now : List Char) (f : Fetch) :
    (emailHandler msg env now f).isOk = true := by
  unfold emailHandler validateEnvironment
  by_cases he : env.NTFY_SERVER = []
  · simp [he, Except.isOk, Except.toBool]
  · rw [if_neg he]
    unfold processEmail
    cases f with
    | response ok st stx => simp [sendNotification, Except.isOk, Except.toBool]
    | reject m => simp [sendNotification, Except.isOk, Except.toBool]

end Mail2Ntfy

namespace Mail2Ntfy

/-- C10: with every piece of metadata absent (no `to`, no `from`, no
headers), `processEmail` substitutes the fixed defaults — sender
`"(unknown sender)"`, subject `"(no subject)"`, date = the current ISO
timestamp (`now`), recipient `""` so the topic is `"unknown"` — and the
notification is still built and sent. -/
theorem claim_c10_processEmail_defaults
    (server now raw stx : List Char) (ok : Bool) (st : Nat) :
    processEmail ⟨server⟩ ⟨none, none, [], raw⟩ now (Fetch.response ok st stx) =
      Except.ok
        ({ url := stripTrailingSlash server ++ "/unknown".data
           title := "Email: (no subject)".data
           priority := "4".data
           tags := "email,".data
           markdown := "yes".data
           body := buildMarkdownPayload
             { fromAddr := "(unknown sender)".data
               toAddr := []
               subject := "(no subject)".data
               date := now
               body := truncateText (cleanBodyText (extractPlainText raw)) 1000 } },
         (if ok then []
          else ["ntfy request failed: ".data ++ (Nat.toDigits 10 st ++ (" ".data ++ stx))]) ++
           ["Email notification sent for: (no subject)".data]) := by
  rfl

end Mail2Ntfy

namespace Mail2Ntfy

theorem aux_splitFirstAt_idx (tok : List Char) :
    ∀ l : List Char,
      splitFirstAt tok l =
        (idxOfSub tok l).map (fun i => (l.take i, l.drop (i + tok.length))) := by
  intro l
  induction l with
  | nil =>
    by_cases ht : tok = []
    · subst ht; rfl
    · simp [splitFirstAt, idxOfSub, ht, List.isEmpty_iff]
  | cons c rest ih =>
    by_cases hl : leadsWith tok (c :: rest) = true
    · simp [splitFirstAt, idxOfSub, hl]
    · unfold splitFirstAt idxOfSub
      rw [if_neg hl, if_neg hl, ih]
      cases hidx : idxOfSub tok rest with
      | none => rfl
      | some i =>
        simp only [Option.map_some', Option.map_map]
        have : i + 1 + tok.length = (i + tok.length) + 1 := by omega
        simp [List.take_succ_cons, this, List.drop_succ_cons, Function.comp]

/-- C8: on a raw message without a boundary token, `extractPlainText`
performs the spec's non-MIME extraction — split at the first
`"\r\n\r\n"` and return the trimmed remainder, or the whole trimmed
text — and on the documented example returns `"Body text"`. -/
theorem claim_c8_nonMime :
    (∀ raw : List Char, findBoundary raw = none →
      extractPlainText raw = specNonMimeExtract raw)
    ∧ extractPlainText "Header: v\r\n\r\nBody text".data = "Body text".data := by
  constructor
  · intro raw h
    by_cases hraw : raw = []
    · subst hraw; decide
    · unfold extractPlainText
      rw [if_neg hraw, h]
      unfold specNonMimeExtract extractSimpleEmail
      rw [aux_splitFirstAt_idx]
      cases hidx : idxOfSub "\r\n\r\n".data raw with
      | none => rfl
      | some i => rfl
  · decide

/-- Witness for C8 at a concrete boundary-free input. -/
theorem claim_c8_witness :
    extractPlainText "A: b\r\n\r\nxyz".data = specNonMimeExtract "A: b\r\n\r\nxyz".data :=
  claim_c8_nonMime.1 "A: b\r\n\r\nxyz".data (by decide)

end Mail2Ntfy

namespace Mail2Ntfy

theorem aux_firstPartBody_findSome :
    ∀ ps : List (List Char),
      firstPartBody ps =
        (ps.filter (fun p => containsSub "Content-Type: text/plain".data p)).findSome?
          (fun p => (extractPartBody p).bind
            (fun bd => if bd = [] then none else some bd)) := by
  intro ps
  induction ps with
  | nil => rfl
  | cons p ps ih =>
    by_cases hp : containsSub "Content-Type: text/plain".data p = true
    · rw [List.filter_cons_of_pos hp, List.findSome?_cons]
      unfold firstPartBody
      rw [if_pos hp]
      cases hb : extractPartBody p with
      | none => simpa [Option.bind] using ih
      | some bd =>
        by_cases hbd : bd = []
        · simp only [hb, Option.bind, hbd, if_pos rfl]
          simpa using ih
        · simp [hb, Option.bind, hbd]
    · rw [List.filter_cons_of_neg hp]
      unfold firstPartBody
      rw [if_neg hp]
      exact ih

/-- C3 (amended): when a boundary is found, `extractPlainText` keeps
exactly the parts that contain the literal `Content-Type: text/plain`
anywhere in the part, returns the first non-empty decoded body among
them, and otherwise falls back to the non-MIME extraction of the whole
raw text. -/
theorem claim_c3_extractPlainText_amended (raw b : List Char)
    (h : findBoundary raw = some b) :
    extractPlainText raw =
      (((jsSplit ("--".data ++ b) raw).filter
            (fun p => containsSub "Content-Type: text/plain".data p)).findSome?
          (fun p => (extractPartBody p).bind
            (fun bd => if bd = [] then none else some bd))).getD
        (extractSimpleEmail raw) := by
  have hraw : raw ≠ [] := by
    intro e; rw [e] at h; simp [findBoundary] at h
  unfold extractPlainText
  rw [if_neg hraw, h, ← aux_firstPartBody_findSome]
  have e : jsSplit ("--".data ++ b) raw = jsSplit ('-' :: '-' :: b) raw := rfl
  rw [e]
  cases hfp : firstPartBody (jsSplit ('-' :: '-' :: b) raw) with
  | none => simp [hfp, Option.getD]
  | some body => simp [hfp, Option.getD]

/-- Witness for C3: on a multipart message with a `text/html` part and a
quoted-printable `text/plain` part, the decoded plain body `"Hi!"` is
returned. -/
theorem claim_c3_witness : extractPlainText rawMp = "Hi!".data := by
  rw [claim_c3_extractPlainText_amended rawMp "XYZ".data (by decide)]
  decide

/-- Counterexample to C3 as stated: in `rawCex` no part's HEADER BLOCK
contains `Content-Type: text/plain` (so the claim demands the non-MIME
fallback), yet the code returns the body of the `text/html` part whose
BODY mentions the token, which differs from the fallback. -/
theorem claim_c3_counterexample :
    findBoundary rawCex = some "B".data
    ∧ ((jsSplit "--B".data rawCex).all
        (fun p => !(containsSub "Content-Type: text/plain".data (headerBlock p)))) = true
    ∧ extractPlainText rawCex = "Content-Type: text/plain is mentioned here".data
    ∧ (extractPlainText rawCex == extractSimpleEmail rawCex) = false := by
  refine ⟨by decide, by decide, by decide, by decide⟩

end Mail2Ntfy

namespace Mail2Ntfy

theorem aux_splitCh_cons (c0 c : Char) (rest : List Char) :
    splitCh c0 (c :: rest) =
      if c = c0 then [] :: splitCh c0 rest
      else
        match splitCh c0 rest with
        | [] => [[c]]
        | s :: ss => (c :: s) :: ss := rfl

theorem aux_splitF_single_cons (c0 c : Char) (fuel : Nat) (rest : List Char) :
    splitF [c0] (fuel + 1) (c :: rest) =
      if leadsWith [c0] (c :: rest) = true then [] :: splitF [c0] fuel rest
      else
        match splitF [c0] fuel rest with
        | [] => [[c]]
        | s :: ss => (c :: s) :: ss := rfl

theorem aux_splitF_single (c0 : Char) :
    ∀ (fuel : Nat) (l : List Char), l.length ≤ fuel →
      splitF [c0] fuel l = splitCh c0 l := by
  intro fuel
  induction fuel with
  | zero =>
    intro l hl
    cases l with
    | nil => rfl
    | cons c rest => simp at hl
  | succ fuel ih =>
    intro l hl
    cases l with
    | nil => rfl
    | cons c rest =>
      rw [List.length_cons, Nat.succ_le_succ_iff] at hl
      rw [aux_splitF_single_cons, aux_splitCh_cons, ih rest hl]
      by_cases hc : c = c0
      · have hlw : leadsWith [c0] (c :: rest) = true := by
          simp [leadsWith, hc]
        rw [if_pos hlw, if_pos hc]
      · have hlw : leadsWith [c0] (c :: rest) = false := by
          simp only [leadsWith, Bool.and_eq_false_iff]
          left
          cases hb : c0 == c
          · rfl
          · have hcc : c0 = c := by simpa using hb
            exact absurd hcc.symm hc
        rw [if_neg (by simp [hlw]), if_neg hc]

theorem aux_splitCh_shape (c0 : Char) :
    ∀ l : List Char,
      splitCh c0 l =
        (l.takeWhile (fun c => !(c == c0))) ::
          (match l.dropWhile (fun c => !(c == c0)) with
           | [] => []
           | _ :: r => splitCh c0 r) := by
  intro l
  induction l with
  | nil => rfl
  | cons c rest ih =>
    by_cases hc : c = c0
    · subst hc
      rw [aux_splitCh_cons, if_pos rfl, List.takeWhile_cons, List.dropWhile_cons]
      simp
    · have hbeq : (c == c0) = false := by
        cases h : c == c0
        · rfl
        · exact absurd (by simpa using h) hc
      rw [aux_splitCh_cons, if_neg hc, List.takeWhile_cons, List.dropWhile_cons, ih]
      simp [hbeq]

theorem aux_dropWhile_contains (c0 : Char) :
    ∀ l : List Char, l.contains c0 = true →
      ∃ r, l.dropWhile (fun c => !(c == c0)) = c0 :: r := by
  intro l
  induction l with
  | nil => intro h; simp [List.contains] at h
  | cons c rest ih =>
    intro h
    by_cases hc : c = c0
    · subst hc
      refine ⟨rest, ?_⟩
      rw [List.dropWhile_cons]
      simp
    · have hbeq : (c == c0) = false := by
        cases hb : c == c0
        · rfl
        · exact absurd (by simpa using hb) hc
      rw [List.contains_cons] at h
      have h2 : rest.contains c0 = true := by
        rcases Bool.or_eq_true_iff.1 h with h1 | h1
        · have : c0 = c := by simpa using h1
          exact absurd this.symm hc
        · exact h1
      rcases ih h2 with ⟨r, hr⟩
      refine ⟨r, ?_⟩
      rw [List.dropWhile_cons]
      simp [hbeq, hr]

/-- C2 (amended): `generateTopic` returns `"unknown"` when the address
has no `@`; otherwise the domain is the segment strictly between the
first `@` and the next `@` (or the end of the string), with every `.`
replaced by `-`, and an empty segment also yields `"unknown"`.  The two
documented examples hold. -/
theorem claim_c2_generateTopic_amended :
    (∀ l : List Char, generateTopic l =
      if l.contains '@' then
        (if ((l.dropWhile (fun c => !(c == '@'))).tail).takeWhile (fun c => !(c == '@')) = []
         then "unknown".data
         else (((l.dropWhile (fun c => !(c == '@'))).tail).takeWhile
            (fun c => !(c == '@'))).map (fun c => if c = '.' then '-' else c))
      else "unknown".data)
    ∧ generateTopic "user@sub.example.com".data = "sub-example-com".data
    ∧ generateTopic "not-an-email".data = "unknown".data := by
  refine ⟨?_, by decide, by decide⟩
  intro l
  by_cases h : l.contains '@' = true
  · rw [if_pos h]
    have hne : ¬(l = [] ∨ l.contains '@' = false) := by
      rintro (e | e)
      · rw [e] at h; simp [List.contains] at h
      · rw [e] at h; exact Bool.false_ne_true h
    unfold generateTopic
    rw [if_neg hne]
    have hsp : jsSplit "@".data l = splitCh '@' l := by
      have e : "@".data = ['@'] := rfl
      rw [jsSplit, e]
      exact aux_splitF_single '@' l.length l (Nat.le_refl _)
    rw [hsp, aux_splitCh_shape]
    rcases aux_dropWhile_contains '@' l h with ⟨r, hr⟩
    rw [hr]
    simp only [List.tail_cons]
    rw [aux_splitCh_shape '@' r]
    simp only [List.get?_cons_succ, List.get?_cons_zero]
  · rw [if_neg h]
    have hfalse : l.contains '@' = false := by
      cases hc : l.contains '@'
      · rfl
      · exact absurd hc h
    unfold generateTopic
    by_cases hl : l = []
    · rw [if_pos (Or.inl hl)]
    · rw [if_pos (Or.inr hfalse)]

end Mail2Ntfy
